import Mathlib

/-!
# Jenkins plugin installs badge service

A shallow embedding of `services/jenkins/jenkins-plugin-installs.service.js`
(class `JenkinsPluginInstalls`) together with the part of the JavaScript
semantics its methods rely on: truthiness, property lookup on an ordinary
object, `Object.keys`, the default `Array.prototype.sort` and `slice(-1)[0]`.

JavaScript strings are represented by Lean strings and compared through their
UTF-16 code units, as the language does.  Counts are natural numbers: both
schemas of the service only admit non-negative integers as values.
-/

namespace JenkinsPluginInstalls

/-! ## JavaScript strings -/

/-- UTF-16 code units of one character: itself inside the basic plane, a
surrogate pair above it. -/
def utf16Char (c : Char) : List Nat :=
  if c.toNat < 0x10000 then [c.toNat]
  else [0xD800 + (c.toNat - 0x10000) / 0x400, 0xDC00 + (c.toNat - 0x10000) % 0x400]

/-- UTF-16 code units of a list of characters. -/
def utf16Chars : List Char → List Nat
  | [] => []
  | c :: cs => utf16Char c ++ utf16Chars cs

/-- UTF-16 code units of a string, the representation JavaScript compares. -/
def utf16 (s : String) : List Nat := utf16Chars s.toList

/-- Strict comparison of two code unit sequences, the string case of the
language's `IsLessThan`: a proper prefix is smaller, otherwise the first
differing code unit decides. -/
def codeUnitsLt : List Nat → List Nat → Bool
  | [], [] => false
  | [], _ :: _ => true
  | _ :: _, [] => false
  | a :: as, b :: bs =>
    if a < b then true else if b < a then false else codeUnitsLt as bs

/-- JavaScript `a < b` on strings. -/
def jsLt (a b : String) : Bool := codeUnitsLt (utf16 a) (utf16 b)

/-- The order of the default sort comparator: `a` may stand before `b`, that
is `b < a` is false. -/
def jsLe (a b : String) : Prop := jsLt b a = false

instance jsLeDecidable : DecidableRel jsLe := fun a b =>
  inferInstanceAs (Decidable (jsLt b a = false))

/-! ## JavaScript values and objects -/

/-- The values a property lookup on a count mapping can produce: `undefined`,
a stored count, or a member inherited from `Object.prototype` (a function, or
the prototype object itself for `__proto__`). -/
inductive JSValue where
  | undefined
  | number (n : Nat)
  | inherited (name : String)
  deriving DecidableEq, Repr

/-- JavaScript `ToBoolean` on these values: `undefined` and `0` are falsy,
every other number, every function and every object is truthy. -/
def JSValue.truthy : JSValue → Bool
  | .undefined => false
  | .number n => n != 0
  | .inherited _ => true

/-- An ordinary object holding counts: its own properties in insertion
order.  Every key occurs once in a real object, see `WellFormed`. -/
abbrev JSObject := List (String × Nat)

/-- The own property names of an object, in insertion order. -/
def ownKeys (o : JSObject) : List String := o.map Prod.fst

/-- No key occurs twice among the own properties. -/
def WellFormed (o : JSObject) : Prop := (ownKeys o).Nodup

instance wellFormedDecidable (o : JSObject) : Decidable (WellFormed o) :=
  inferInstanceAs (Decidable (ownKeys o).Nodup)

/-- The own property stored under a key, when there is one. -/
def ownLookup : JSObject → String → Option Nat
  | [], _ => none
  | (k, n) :: rest, key => if k = key then some n else ownLookup rest key

/-- The property names every ordinary object inherits from
`Object.prototype`. -/
def objectPrototypeKeys : List String :=
  ["constructor", "__defineGetter__", "__defineSetter__", "hasOwnProperty",
   "__lookupGetter__", "__lookupSetter__", "isPrototypeOf",
   "propertyIsEnumerable", "toString", "valueOf", "__proto__",
   "toLocaleString"]

/-- Property access `o[key]`: an own property wins, then the prototype chain
is searched, otherwise the result is `undefined`. -/
def getProp (o : JSObject) (key : String) : JSValue :=
  match ownLookup o key with
  | some n => .number n
  | none => if key ∈ objectPrototypeKeys then .inherited key else .undefined

/-- `ToPropertyKey` for the result of `slice(-1)[0]`: `undefined` becomes the
string "undefined". -/
def toPropertyKey : Option String → String
  | some k => k
  | none => "undefined"

/-- Value of a string of decimal digits. -/
def decimalValue (s : String) : Nat :=
  s.toList.foldl (fun acc c => acc * 10 + (c.toNat - 48)) 0

/-- The string is a non-empty sequence of decimal digits. -/
def isDecimal (s : String) : Bool :=
  !s.toList.isEmpty && s.toList.all (fun c => 48 ≤ c.toNat && c.toNat ≤ 57)

/-- The string is an array index: the canonical decimal form of an integer
below `2^32 - 1`. -/
def isArrayIndex (s : String) : Bool :=
  isDecimal s && (s == "0" || s.toList.head? != some '0') &&
    decide (decimalValue s < 4294967295)

/-- `Object.keys(o)`: array-index keys first in ascending numeric order, then
the remaining string keys in insertion order. -/
def objectKeys (o : JSObject) : List String :=
  ((ownKeys o).filter isArrayIndex).insertionSort
      (fun a b => decimalValue a ≤ decimalValue b) ++
    (ownKeys o).filter (fun k => !isArrayIndex k)

/-- `Array.prototype.sort()` without a comparator on an array of strings:
ascending code unit order.  The comparator is a total order on strings, so
every sorting algorithm produces this list. -/
def sort (keys : List String) : List String := keys.insertionSort jsLe

/-- `xs.slice(-1)[0]`: the last element, `undefined` for the empty array. -/
def sliceLast (keys : List String) : Option String := keys.getLast?

/-! ## The service -/

/-- The parsed upstream document, restricted to the two fields the service
reads; a field that is absent is `none`. -/
structure Json where
  installations : Option JSObject
  installationsPerVersion : Option JSObject
  deriving DecidableEq, Repr

/-- Key patterns used by the two schemas. -/
inductive KeyPattern where
  | nonNegativeInteger
  | string
  deriving DecidableEq, Repr

/-- An object schema with one required field holding an object whose keys
follow a pattern, whose values are non-negative integers and which has a
minimal number of keys. -/
structure Schema where
  field : String
  keyPattern : KeyPattern
  minKeys : Nat
  deriving DecidableEq, Repr

/-- Schema of the per-date document. -/
def schemaInstallations : Schema :=
  { field := "installations", keyPattern := .nonNegativeInteger, minKeys := 1 }

/-- Schema of the per-version document. -/
def schemaInstallationsPerVersion : Schema :=
  { field := "installationsPerVersion", keyPattern := .string, minKeys := 1 }

/-- The field of a document with the given name. -/
def Json.get (json : Json) (field : String) : Option JSObject :=
  if field = "installations" then json.installations
  else if field = "installationsPerVersion" then json.installationsPerVersion
  else none

/-- Validation of a document against a schema.  The key validator of
`../validators.js` is a parameter. -/
def Schema.accepts (keyOk : KeyPattern → String → Bool) (s : Schema)
    (json : Json) : Bool :=
  match json.get s.field with
  | none => false
  | some o => (ownKeys o).all (keyOk s.keyPattern) && decide (s.minKeys ≤ o.length)

/-- JavaScript `ToBoolean` on the optional route parameter `version`:
`undefined` and the empty string are falsy. -/
def versionTruthy : Option String → Bool
  | none => false
  | some v => v != ""

/-- The request description `fetch` hands to `_requestJson`. -/
structure Request where
  url : String
  schema : Schema
  httpErrors : List (Nat × String)
  deriving DecidableEq, Repr

/-- The custom message a request gives for an upstream status code. -/
def Request.httpError (r : Request) (status : Nat) : Option String :=
  (r.httpErrors.find? (fun e => e.1 == status)).map Prod.snd

/-- The argument of `fetch`: the request passed to `_requestJson`. -/
def fetch (plugin : String) (version : Option String) : Request :=
  { url := "https://old.stats.jenkins.io/plugin-installation-trend/" ++ plugin ++
      ".stats.json"
    schema := if versionTruthy version then schemaInstallationsPerVersion
      else schemaInstallations
    httpErrors := [(404, "plugin not found")] }

/-- Errors a call can raise: the service's `NotFound` with its pretty
message, the `TypeError` of reading keys of an absent field, and whatever
`_requestJson` raises. -/
inductive ServiceError where
  | notFound (prettyMessage : String)
  | typeError
  | upstream (message : String)
  deriving DecidableEq, Repr

/-- Equality of outcomes is decidable. -/
instance exceptDecEq {ε α : Type} [DecidableEq ε] [DecidableEq α] :
    DecidableEq (Except ε α)
  | .ok a, .ok b =>
    if h : a = b then isTrue (by rw [h]) else isFalse (fun e => h (Except.ok.inj e))
  | .error a, .error b =>
    if h : a = b then isTrue (by rw [h]) else isFalse (fun e => h (Except.error.inj e))
  | .ok _, .error _ => isFalse (fun e => Except.noConfusion e)
  | .error _, .ok _ => isFalse (fun e => Except.noConfusion e)

/-- The object `transform` returns. -/
structure Transformed where
  installs : JSValue
  deriving DecidableEq, Repr

/-- The static method `transform({ json, version })`. -/
def transform (json : Json) (version : Option String) :
    Except ServiceError Transformed :=
  if !versionTruthy version then
    match json.installations with
    | none => .error .typeError
    | some installations =>
      let latestDate := sliceLast (sort (objectKeys installations))
      .ok { installs := getProp installations (toPropertyKey latestDate) }
  else
    match json.installationsPerVersion with
    | none => .error .typeError
    | some installationsPerVersion =>
      let installs := getProp installationsPerVersion (toPropertyKey version)
      if !installs.truthy then
        .error (.notFound "version not found")
      else
        .ok { installs := installs }

/-- The argument object `render` builds for `renderDownloadsBadge`. -/
structure DownloadsBadgeArgs where
  downloads : JSValue
  versionedLabelPrefix : String
  version : Option String
  deriving DecidableEq, Repr

/-- The static method `render({ installs: downloads, version })`, with the
helper of `../downloads.js` as a parameter. -/
def render {Badge : Type} (renderDownloadsBadge : DownloadsBadgeArgs → Badge)
    (installs : JSValue) (version : Option String) : Badge :=
  renderDownloadsBadge
    { downloads := installs, versionedLabelPrefix := "installs", version := version }

/-- The method `handle({ plugin, version })`, with `_requestJson` of the base
class and the badge helper as parameters. -/
def handle {Badge : Type} (requestJson : Request → Except ServiceError Json)
    (renderDownloadsBadge : DownloadsBadgeArgs → Badge)
    (plugin : String) (version : Option String) : Except ServiceError Badge :=
  match requestJson (fetch plugin version) with
  | .error e => .error e
  | .ok json =>
    match transform json version with
    | .error e => .error e
    | .ok r => .ok (render renderDownloadsBadge r.installs version)

/-! ## The code unit order is a total order -/

theorem codeUnitsLt_irrefl (a : List Nat) : codeUnitsLt a a = false := by
  induction a with
  | nil => rfl
  | cons x xs ih => simp [codeUnitsLt, ih]

theorem codeUnitsLt_asymm : ∀ a b : List Nat,
    codeUnitsLt a b = true → codeUnitsLt b a = false
  | [], [] => by simp [codeUnitsLt]
  | [], _ :: _ => by simp [codeUnitsLt]
  | _ :: _, [] => by simp [codeUnitsLt]
  | x :: xs, y :: ys => by
    intro h
    unfold codeUnitsLt at h ⊢
    by_cases h1 : x < y
    · have h2 : ¬ y < x := by omega
      simp [h1, h2]
    · by_cases h2 : y < x
      · simp [h1, h2] at h
      · simp only [h1, h2, if_false] at h ⊢
        exact codeUnitsLt_asymm xs ys h

theorem codeUnitsLt_antisymm : ∀ a b : List Nat,
    codeUnitsLt a b = false → codeUnitsLt b a = false → a = b
  | [], [] => by simp
  | [], _ :: _ => by simp [codeUnitsLt]
  | _ :: _, [] => by simp [codeUnitsLt]
  | x :: xs, y :: ys => by
    intro h h'
    unfold codeUnitsLt at h h'
    by_cases h1 : x < y
    · simp [h1] at h
    · by_cases h2 : y < x
      · simp [h2] at h'
      · simp only [h1, h2, if_false] at h h'
        have hxy : x = y := by omega
        rw [hxy, codeUnitsLt_antisymm xs ys h h']

theorem codeUnitsLt_trans : ∀ a b c : List Nat,
    codeUnitsLt a b = true → codeUnitsLt b c = true → codeUnitsLt a c = true
  | [], _, [] => by intro h h'; cases ‹List Nat› <;> simp [codeUnitsLt] at h h'
  | [], _, _ :: _ => by simp [codeUnitsLt]
  | _ :: _, [], _ => by simp [codeUnitsLt]
  | _ :: _, _ :: _, [] => by simp [codeUnitsLt]
  | x :: xs, y :: ys, z :: zs => by
    intro h h'
    unfold codeUnitsLt at h h' ⊢
    by_cases h1 : x < y
    · by_cases h2 : y < z
      · have : x < z := by omega
        simp [this]
      · by_cases h3 : z < y
        · simp [h2, h3] at h'
        · have hyz : y = z := by omega
          subst hyz
          simp [h1]
    · by_cases h2 : y < x
      · simp [h1, h2] at h
      · have hxy : x = y := by omega
        subst hxy
        simp only [h1, if_false] at h
        by_cases h3 : x < z
        · simp [h3]
        · by_cases h4 : z < x
          · simp [h3, h4] at h'
          · simp only [h3, h4, if_false] at h' ⊢
            exact codeUnitsLt_trans xs ys zs h h'

theorem jsLe_refl (a : String) : jsLe a a := codeUnitsLt_irrefl _

theorem jsLe_total (a b : String) : jsLe a b ∨ jsLe b a := by
  unfold jsLe jsLt
  cases h : codeUnitsLt (utf16 b) (utf16 a) with
  | false => exact Or.inl rfl
  | true => exact Or.inr (codeUnitsLt_asymm _ _ h)

theorem jsLe_trans (a b c : String) (hab : jsLe a b) (hbc : jsLe b c) : jsLe a c := by
  unfold jsLe jsLt at *
  cases h : codeUnitsLt (utf16 c) (utf16 a) with
  | false => rfl
  | true =>
    cases h' : codeUnitsLt (utf16 c) (utf16 b) with
    | true => rw [h'] at hbc; cases hbc
    | false =>
      cases h'' : codeUnitsLt (utf16 b) (utf16 c) with
      | false =>
        have e := codeUnitsLt_antisymm _ _ h'' h'
        rw [← e, hab] at h
        cases h
      | true =>
        have t := codeUnitsLt_trans _ _ _ h'' h
        rw [hab] at t
        cases t

instance jsLeIsTotal : IsTotal String jsLe := ⟨jsLe_total⟩

instance jsLeIsTrans : IsTrans String jsLe := ⟨jsLe_trans⟩

/-! ## The UTF-16 encoding is injective -/

theorem utf16Char_ne_nil (c : Char) : utf16Char c ≠ [] := by
  unfold utf16Char
  split <;> simp

theorem char_toNat_valid (c : Char) :
    c.toNat < 0xD800 ∨ (0xDFFF < c.toNat ∧ c.toNat < 0x110000) := c.valid

theorem char_eq_of_toNat_eq {c d : Char} (h : c.toNat = d.toNat) : c = d := by
  apply Char.ext
  apply UInt32.ext
  exact h

theorem utf16Char_append_inj (c d : Char) (r r' : List Nat)
    (h : utf16Char c ++ r = utf16Char d ++ r') : c = d ∧ r = r' := by
  have hc := char_toNat_valid c
  have hd := char_toNat_valid d
  unfold utf16Char at h
  by_cases h1 : c.toNat < 0x10000 <;> by_cases h2 : d.toNat < 0x10000
  · simp only [h1, h2, if_true, List.singleton_append, List.cons.injEq] at h
    exact ⟨char_eq_of_toNat_eq h.1, h.2⟩
  · simp only [h1, h2, if_true, if_false, List.singleton_append, List.cons_append,
      List.nil_append, List.cons.injEq] at h
    omega
  · simp only [h1, h2, if_true, if_false, List.singleton_append, List.cons_append,
      List.nil_append, List.cons.injEq] at h
    omega
  · simp only [h1, h2, if_false, List.cons_append, List.nil_append,
      List.cons.injEq] at h
    refine ⟨char_eq_of_toNat_eq ?_, ?_⟩
    · omega
    · obtain ⟨_, h3⟩ := h
      rcases r with _ | ⟨x, xs⟩ <;> rcases r' with _ | ⟨y, ys⟩
      · rfl
      · simp at h3
      · simp at h3
      · exact h3.2

theorem utf16Chars_inj : ∀ a b : List Char, utf16Chars a = utf16Chars b → a = b
  | [], [] => fun _ => rfl
  | [], d :: ds => by
    intro h
    have : utf16Char d ++ utf16Chars ds = [] := h.symm
    exact absurd (List.append_eq_nil.mp this).1 (utf16Char_ne_nil d)
  | c :: cs, [] => by
    intro h
    have : utf16Char c ++ utf16Chars cs = [] := h
    exact absurd (List.append_eq_nil.mp this).1 (utf16Char_ne_nil c)
  | c :: cs, d :: ds => by
    intro h
    obtain ⟨h1, h2⟩ := utf16Char_append_inj c d _ _ h
    rw [h1, utf16Chars_inj cs ds h2]

theorem utf16_inj {a b : String} (h : utf16 a = utf16 b) : a = b := by
  have := utf16Chars_inj _ _ h
  exact String.ext this

theorem jsLe_antisymm {a b : String} (hab : jsLe a b) (hba : jsLe b a) : a = b :=
  utf16_inj (codeUnitsLt_antisymm _ _ hba hab)

/-! ## Keys, sorting and the last element -/

theorem objectKeys_perm (o : JSObject) : (objectKeys o).Perm (ownKeys o) := by
  unfold objectKeys
  exact ((List.perm_insertionSort _ _).append_right _).trans
    (List.filter_append_perm isArrayIndex (ownKeys o))

theorem sort_perm (keys : List String) : (sort keys).Perm keys :=
  List.perm_insertionSort jsLe keys

theorem sort_sorted (keys : List String) : (sort keys).Pairwise jsLe :=
  List.sorted_insertionSort jsLe keys

theorem mem_sort_objectKeys (o : JSObject) (k : String) :
    k ∈ sort (objectKeys o) ↔ k ∈ ownKeys o :=
  ((sort_perm _).trans (objectKeys_perm o)).mem_iff

theorem getLast?_mem {l : List String} {k : String} (h : l.getLast? = some k) :
    k ∈ l := by
  induction l with
  | nil => simp at h
  | cons x xs ih =>
    cases xs with
    | nil =>
      simp at h
      simp [h]
    | cons y ys =>
      rw [List.getLast?_cons_cons] at h
      exact List.mem_cons_of_mem _ (ih h)

theorem getLast?_greatest {l : List String} {k : String}
    (hs : l.Pairwise jsLe) (h : l.getLast? = some k) : ∀ x ∈ l, jsLe x k := by
  induction l with
  | nil => simp at h
  | cons x xs ih =>
    cases xs with
    | nil =>
      simp at h
      intro y hy
      simp at hy
      rw [hy, h]
      exact jsLe_refl k
    | cons y ys =>
      rw [List.getLast?_cons_cons] at h
      intro z hz
      rcases List.mem_cons.mp hz with hz | hz
      · rw [hz]
        exact (List.pairwise_cons.mp hs).1 k (getLast?_mem h)
      · exact ih (List.pairwise_cons.mp hs).2 h z hz

theorem sliceLast_eq_none {l : List String} (h : sliceLast l = none) : l = [] := by
  unfold sliceLast at h
  cases l with
  | nil => rfl
  | cons x xs =>
    rw [List.getLast?_eq_getLast _ (List.cons_ne_nil x xs)] at h
    cases h

/-- The key `transform` selects on a non-empty mapping is an own key and no
own key is greater in code unit order. -/
theorem latestDate_spec (o : JSObject) (h : o ≠ []) :
    ∃ k, sliceLast (sort (objectKeys o)) = some k ∧ k ∈ ownKeys o ∧
      ∀ x ∈ ownKeys o, jsLe x k := by
  cases hk : sliceLast (sort (objectKeys o)) with
  | none =>
    have h1 := sliceLast_eq_none hk
    have h2 : (ownKeys o).length = 0 := by
      rw [← ((sort_perm _).trans (objectKeys_perm o)).length_eq, h1]
      rfl
    have h3 : o = [] := by
      unfold ownKeys at h2
      rw [List.length_map] at h2
      exact List.length_eq_zero.mp h2
    exact absurd h3 h
  | some k =>
    refine ⟨k, rfl, (mem_sort_objectKeys o k).mp (getLast?_mem hk), ?_⟩
    intro x hx
    exact getLast?_greatest (sort_sorted _) hk x ((mem_sort_objectKeys o x).mpr hx)

theorem ownLookup_of_mem_keys : ∀ (o : JSObject) (k : String), k ∈ ownKeys o →
    ∃ n, ownLookup o k = some n ∧ (k, n) ∈ o
  | [], _, h => by simp [ownKeys] at h
  | (k0, n0) :: rest, k, h => by
    by_cases e : k0 = k
    · exact ⟨n0, by simp [ownLookup, e], by simp [e]⟩
    · have h1 : k ∈ ownKeys rest := by
        simp only [ownKeys, List.map_cons, List.mem_cons] at h
        rcases h with h | h
        · exact absurd h.symm e
        · exact h
      obtain ⟨n, hn, hm⟩ := ownLookup_of_mem_keys rest k h1
      exact ⟨n, by simp [ownLookup, e, hn], List.mem_cons_of_mem _ hm⟩

theorem ownLookup_eq_none : ∀ (o : JSObject) (k : String), k ∉ ownKeys o →
    ownLookup o k = none
  | [], _, _ => rfl
  | (k0, n0) :: rest, k, h => by
    simp only [ownKeys, List.map_cons, List.mem_cons, not_or] at h
    have e : ¬ k0 = k := fun e => h.1 e.symm
    simp only [ownLookup, e, if_false]
    exact ownLookup_eq_none rest k h.2

theorem mem_unique_of_wellFormed : ∀ (o : JSObject), WellFormed o →
    ∀ k n m, (k, n) ∈ o → (k, m) ∈ o → n = m
  | [], _, _, _, _, h, _ => by cases h
  | (k0, n0) :: rest, hw, k, n, m, h1, h2 => by
    unfold WellFormed ownKeys at hw
    simp only [List.map_cons, List.nodup_cons] at hw
    have key : ∀ x, (k0, x) ∈ rest → False := fun x hx =>
      hw.1 (List.mem_map.mpr ⟨(k0, x), hx, rfl⟩)
    rcases List.mem_cons.mp h1 with h1 | h1 <;> rcases List.mem_cons.mp h2 with h2 | h2
    · cases h1; cases h2; rfl
    · cases h1; exact absurd h2 (key m)
    · cases h2; exact absurd h1 (key n)
    · exact mem_unique_of_wellFormed rest hw.2 k n m h1 h2

/-- The no-version path on a non-empty mapping: the count returned is stored
under an own key that no own key exceeds in code unit order. -/
theorem transform_latest (json : Json) (version : Option String) (o : JSObject)
    (hv : versionTruthy version = false) (hj : json.installations = some o)
    (ho : o ≠ []) :
    ∃ k n, k ∈ ownKeys o ∧ (∀ x ∈ ownKeys o, jsLe x k) ∧ ownLookup o k = some n ∧
      (k, n) ∈ o ∧ transform json version = .ok { installs := .number n } := by
  obtain ⟨k, hk, hmem, hmax⟩ := latestDate_spec o ho
  obtain ⟨n, hn, hin⟩ := ownLookup_of_mem_keys o k hmem
  refine ⟨k, n, hmem, hmax, hn, hin, ?_⟩
  simp [transform, hv, hj, hk, toPropertyKey, getProp, hn]

/-! ## Decimal keys of equal length -/

theorem utf16Chars_digits : ∀ cs : List Char,
    (∀ c ∈ cs, 48 ≤ c.toNat ∧ c.toNat ≤ 57) → utf16Chars cs = cs.map Char.toNat
  | [], _ => rfl
  | c :: cs, h => by
    have hc := h c (List.mem_cons_self _ _)
    have h1 : c.toNat < 0x10000 := by omega
    simp only [utf16Chars, utf16Char, h1, if_true, List.map_cons, List.singleton_append]
    rw [utf16Chars_digits cs (fun d hd => h d (List.mem_cons_of_mem _ hd))]

/-- Value of a list of digits read from an accumulator. -/
def digitsValue (acc : Nat) (cs : List Char) : Nat :=
  cs.foldl (fun acc c => acc * 10 + (c.toNat - 48)) acc

theorem digitsValue_acc : ∀ (cs : List Char) (acc : Nat),
    digitsValue acc cs = acc * 10 ^ cs.length + digitsValue 0 cs
  | [], acc => by simp [digitsValue]
  | c :: cs, acc => by
    have h1 := digitsValue_acc cs (acc * 10 + (c.toNat - 48))
    have h2 := digitsValue_acc cs (0 * 10 + (c.toNat - 48))
    simp only [digitsValue, List.foldl_cons, List.length_cons] at h1 h2 ⊢
    rw [h1, h2, pow_succ]
    ring

theorem digitsValue_lt : ∀ cs : List Char,
    (∀ c ∈ cs, 48 ≤ c.toNat ∧ c.toNat ≤ 57) → digitsValue 0 cs < 10 ^ cs.length
  | [], _ => by simp [digitsValue]
  | c :: cs, h => by
    have hc := h c (List.mem_cons_self _ _)
    have ih := digitsValue_lt cs (fun d hd => h d (List.mem_cons_of_mem _ hd))
    have e : digitsValue 0 (c :: cs) = digitsValue (0 * 10 + (c.toNat - 48)) cs := rfl
    rw [e, digitsValue_acc, List.length_cons, pow_succ]
    have h3 : (0 * 10 + (c.toNat - 48)) * 10 ^ cs.length ≤ 9 * 10 ^ cs.length :=
      Nat.mul_le_mul_right _ (by omega)
    omega

theorem digitsValue_le_of_codeUnits : ∀ as bs : List Char,
    as.length = bs.length →
    (∀ c ∈ as, 48 ≤ c.toNat ∧ c.toNat ≤ 57) →
    (∀ c ∈ bs, 48 ≤ c.toNat ∧ c.toNat ≤ 57) →
    codeUnitsLt (bs.map Char.toNat) (as.map Char.toNat) = false →
    digitsValue 0 as ≤ digitsValue 0 bs
  | [], [], _, _, _, _ => Nat.le_refl _
  | [], _ :: _, hl, _, _, _ => by simp at hl
  | _ :: _, [], hl, _, _, _ => by simp at hl
  | a :: as, b :: bs, hl, ha, hb, h => by
    have ha0 := ha a (List.mem_cons_self _ _)
    have hb0 := hb b (List.mem_cons_self _ _)
    have ha' : ∀ c ∈ as, 48 ≤ c.toNat ∧ c.toNat ≤ 57 :=
      fun d hd => ha d (List.mem_cons_of_mem _ hd)
    have hb' : ∀ c ∈ bs, 48 ≤ c.toNat ∧ c.toNat ≤ 57 :=
      fun d hd => hb d (List.mem_cons_of_mem _ hd)
    have hl' : as.length = bs.length := by simpa using hl
    have ea : digitsValue 0 (a :: as) = digitsValue (0 * 10 + (a.toNat - 48)) as := rfl
    have eb : digitsValue 0 (b :: bs) = digitsValue (0 * 10 + (b.toNat - 48)) bs := rfl
    rw [ea, eb, digitsValue_acc as, digitsValue_acc bs, hl']
    simp only [List.map_cons, codeUnitsLt] at h
    by_cases h1 : b.toNat < a.toNat
    · simp [h1] at h
    · by_cases h2 : a.toNat < b.toNat
      · have h3 := digitsValue_lt as ha'
        rw [hl'] at h3
        have h4 : (0 * 10 + (a.toNat - 48) + 1) * 10 ^ bs.length ≤
            (0 * 10 + (b.toNat - 48)) * 10 ^ bs.length :=
          Nat.mul_le_mul_right _ (by omega)
        rw [Nat.add_mul, Nat.one_mul] at h4
        omega
      · simp only [h1, h2, if_false] at h
        have h3 := digitsValue_le_of_codeUnits as bs hl' ha' hb' h
        have h4 : a.toNat = b.toNat := by omega
        rw [h4]
        omega

theorem isDecimal_digits {s : String} (h : isDecimal s = true) :
    ∀ c ∈ s.toList, 48 ≤ c.toNat ∧ c.toNat ≤ 57 := by
  intro c hc
  simp only [isDecimal, Bool.and_eq_true, List.all_eq_true, decide_eq_true_eq] at h
  exact h.2 c hc

/-- On decimal strings with the same number of digits the code unit order
agrees with the numeric order. -/
theorem decimalValue_le_of_jsLe {a b : String} (ha : isDecimal a = true)
    (hb : isDecimal b = true) (hl : a.length = b.length) (h : jsLe a b) :
    decimalValue a ≤ decimalValue b := by
  have da := isDecimal_digits ha
  have db := isDecimal_digits hb
  unfold jsLe jsLt utf16 at h
  rw [utf16Chars_digits _ da, utf16Chars_digits _ db] at h
  exact digitsValue_le_of_codeUnits a.toList b.toList hl da db h

/-! ## The version path -/

/-- A version that is an own key with a positive count is returned as is. -/
theorem transform_version_positive (json : Json) (v : String) (o : JSObject) (n : Nat)
    (hv : v ≠ "") (hj : json.installationsPerVersion = some o)
    (hk : ownLookup o v = some n) (hn : 0 < n) :
    transform json (some v) = .ok { installs := .number n } := by
  have h0 : n ≠ 0 := by omega
  simp [transform, versionTruthy, hv, hj, toPropertyKey, getProp, hk, JSValue.truthy, h0]

/-- A version that is neither an own key nor a name inherited from
`Object.prototype` is reported as not found. -/
theorem transform_version_absent (json : Json) (v : String) (o : JSObject)
    (hv : v ≠ "") (hj : json.installationsPerVersion = some o)
    (hk : v ∉ ownKeys o) (hp : v ∉ objectPrototypeKeys) :
    transform json (some v) = .error (.notFound "version not found") := by
  simp [transform, versionTruthy, hv, hj, toPropertyKey, getProp,
    ownLookup_eq_none o v hk, hp, JSValue.truthy]

/-! ## Claims -/

/-- Claim C1, at the input where the code departs from it: the version "1.26"
is a key of the per-version mapping and its count is 0, and `transform`
raises NotFound "version not found" instead of returning installs 0. -/
theorem transform_zero_count_not_found :
    ownLookup [("1.26", 0)] "1.26" = some 0 ∧
    transform { installations := none, installationsPerVersion := some [("1.26", 0)] }
      (some "1.26") = .error (.notFound "version not found") := by
  decide

/-- Claim C2: on a non-empty date mapping the no-version path (version absent
or empty) returns the count stored under an own key that is greatest in the
code unit order of JavaScript string comparison. -/
theorem transform_noVersion_lexGreatest (json : Json) (version : Option String)
    (o : JSObject) (hv : versionTruthy version = false)
    (hj : json.installations = some o) (ho : o ≠ []) :
    ∃ k n, k ∈ ownKeys o ∧ (∀ x ∈ ownKeys o, jsLt k x = false) ∧
      ownLookup o k = some n ∧
      transform json version = .ok { installs := .number n } := by
  obtain ⟨k, n, h1, h2, h3, _, h5⟩ := transform_latest json version o hv hj ho
  exact ⟨k, n, h1, h2, h3, h5⟩

/-- Witness of C2 on the documented example. -/
theorem transform_noVersion_lexGreatest_witness :
    versionTruthy none = false ∧
    ([("2020-01-01", 5), ("2020-06-01", 12)] : JSObject) ≠ [] ∧
    ∃ k n, k ∈ ownKeys [("2020-01-01", 5), ("2020-06-01", 12)] ∧
      (∀ x ∈ ownKeys [("2020-01-01", 5), ("2020-06-01", 12)], jsLt k x = false) ∧
      ownLookup [("2020-01-01", 5), ("2020-06-01", 12)] k = some n ∧
      transform { installations := some [("2020-01-01", 5), ("2020-06-01", 12)],
                  installationsPerVersion := none } none
        = .ok { installs := .number n } :=
  ⟨rfl, by decide,
    transform_noVersion_lexGreatest
      { installations := some [("2020-01-01", 5), ("2020-06-01", 12)],
        installationsPerVersion := none }
      none [("2020-01-01", 5), ("2020-06-01", 12)] rfl rfl (by decide)⟩

/-- Claim C3, at the input where the code departs from it: the version
"constructor" is not a key of the per-version mapping, and `transform` raises
nothing and returns as installs the member inherited from
`Object.prototype`. -/
theorem transform_inherited_name_returned :
    "constructor" ∉ ownKeys [("1.26", 7)] ∧
    transform { installations := none, installationsPerVersion := some [("1.26", 7)] }
      (some "constructor") = .ok { installs := .inherited "constructor" } := by
  decide

/-- Claim C4: for every plugin and version the request built by `fetch` gives
the message "plugin not found" for status 404 and no message for any other
status. -/
theorem fetch_httpErrors (plugin : String) (version : Option String) (status : Nat) :
    (fetch plugin version).httpErrors = [(404, "plugin not found")] ∧
    (fetch plugin version).httpError status =
      if status = 404 then some "plugin not found" else none := by
  refine ⟨rfl, ?_⟩
  by_cases h : status = 404
  · subst h
    rfl
  · have h' : ¬ 404 = status := fun e => h e.symm
    simp [Request.httpError, fetch, h, h']

/-- Claim C5: the URL requested by `fetch` is the fixed prefix followed by the
plugin identifier and ".stats.json", whatever the version, so two calls with
the same plugin request the same URL. -/
theorem fetch_url (plugin : String) (version version' : Option String) :
    (fetch plugin version).url =
      "https://old.stats.jenkins.io/plugin-installation-trend/" ++ plugin ++
        ".stats.json" ∧
    (fetch plugin version).url = (fetch plugin version').url :=
  ⟨rfl, rfl⟩

/-- Claim C6 fails as stated: the keys "9" and "10" are decimal strings, the
numerically greatest is "10" with count 2, and the no-version path returns
the count 1 stored under "9"; no numerically greatest key carries the
returned count. -/
theorem transform_noVersion_not_numericGreatest :
    (∀ k ∈ ownKeys [("9", 1), ("10", 2)], isDecimal k = true) ∧
    transform { installations := some [("9", 1), ("10", 2)],
                installationsPerVersion := none } none
      = .ok { installs := .number 1 } ∧
    ¬ ∃ k n, k ∈ ownKeys [("9", 1), ("10", 2)] ∧
      (∀ x ∈ ownKeys [("9", 1), ("10", 2)], decimalValue x ≤ decimalValue k) ∧
      ownLookup [("9", 1), ("10", 2)] k = some n ∧
      transform { installations := some [("9", 1), ("10", 2)],
                  installationsPerVersion := none } none
        = .ok { installs := .number n } := by
  refine ⟨by decide, by decide, ?_⟩
  rintro ⟨k, n, hk, hmax, hn, ht⟩
  have h10 : decimalValue "10" ≤ decimalValue k := hmax "10" (by decide)
  have hk' : k = "9" ∨ k = "10" := by
    simpa [ownKeys] using hk
  rcases hk' with hk' | hk'
  · subst hk'
    revert h10
    decide
  · subst hk'
    have h2 : n = 2 := by
      have : ownLookup [("9", 1), ("10", 2)] "10" = some 2 := by decide
      rw [this] at hn
      exact (Option.some.inj hn).symm
    subst h2
    revert ht
    decide

/-- Claim C6 as amended: on a non-empty mapping whose keys are decimal
strings that all have the same number of digits, the no-version path returns
the count stored under a numerically greatest key. -/
theorem transform_noVersion_numericGreatest (json : Json) (version : Option String)
    (o : JSObject) (len : Nat) (hv : versionTruthy version = false)
    (hj : json.installations = some o) (ho : o ≠ [])
    (hd : ∀ k ∈ ownKeys o, isDecimal k = true ∧ k.length = len) :
    ∃ k n, k ∈ ownKeys o ∧ (∀ x ∈ ownKeys o, decimalValue x ≤ decimalValue k) ∧
      ownLookup o k = some n ∧
      transform json version = .ok { installs := .number n } := by
  obtain ⟨k, n, h1, h2, h3, _, h5⟩ := transform_latest json version o hv hj ho
  refine ⟨k, n, h1, ?_, h3, h5⟩
  intro x hx
  exact decimalValue_le_of_jsLe (hd x hx).1 (hd k h1).1
    ((hd x hx).2.trans (hd k h1).2.symm) (h2 x hx)

/-- Witness of the amended C6 on two millisecond timestamps. -/
theorem transform_noVersion_numericGreatest_witness :
    versionTruthy none = false ∧
    ([("1577836800000", 5), ("1590969600000", 12)] : JSObject) ≠ [] ∧
    (∀ k ∈ ownKeys [("1577836800000", 5), ("1590969600000", 12)],
      isDecimal k = true ∧ k.length = 13) ∧
    ∃ k n, k ∈ ownKeys [("1577836800000", 5), ("1590969600000", 12)] ∧
      (∀ x ∈ ownKeys [("1577836800000", 5), ("1590969600000", 12)],
        decimalValue x ≤ decimalValue k) ∧
      ownLookup [("1577836800000", 5), ("1590969600000", 12)] k = some n ∧
      transform { installations := some [("1577836800000", 5), ("1590969600000", 12)],
                  installationsPerVersion := none } none
        = .ok { installs := .number n } :=
  ⟨rfl, by decide, by decide,
    transform_noVersion_numericGreatest
      { installations := some [("1577836800000", 5), ("1590969600000", 12)],
        installationsPerVersion := none }
      none [("1577836800000", 5), ("1590969600000", 12)] 13 rfl rfl (by decide)
      (by decide)⟩

/-- Claim C7: once the document is fetched, `handle` returns the badge that
`renderDownloadsBadge` builds from downloads = installs, the label prefix
"installs" and the same version when `transform` returns installs, and
raises the same NotFound error, with no badge, when `transform` raises it. -/
theorem handle_composes {Badge : Type}
    (requestJson : Request → Except ServiceError Json)
    (renderDownloadsBadge : DownloadsBadgeArgs → Badge)
    (plugin : String) (version : Option String) (json : Json)
    (hf : requestJson (fetch plugin version) = .ok json) :
    (∀ installs, transform json version = .ok { installs := installs } →
      handle requestJson renderDownloadsBadge plugin version
        = .ok (render renderDownloadsBadge installs version) ∧
      render renderDownloadsBadge installs version
        = renderDownloadsBadge
            { downloads := installs, versionedLabelPrefix := "installs",
              version := version }) ∧
    (∀ message, transform json version = .error (.notFound message) →
      handle requestJson renderDownloadsBadge plugin version
        = .error (.notFound message)) := by
  constructor
  · intro installs ht
    refine ⟨?_, rfl⟩
    simp only [handle, hf, ht]
  · intro message ht
    simp only [handle, hf, ht]

/-- Witness of C7: an upstream that answers with the documented per-version
document, the badge being the argument record itself. -/
theorem handle_composes_witness :
    (fun _ => Except.ok { installations := none,
                          installationsPerVersion := some [("1.26", 7)] } :
        Request → Except ServiceError Json) (fetch "view-job-filters" (some "1.26"))
      = .ok { installations := none, installationsPerVersion := some [("1.26", 7)] } ∧
    ((∀ installs,
      transform { installations := none, installationsPerVersion := some [("1.26", 7)] }
        (some "1.26") = .ok { installs := installs } →
      handle (fun _ => Except.ok { installations := none,
                                   installationsPerVersion := some [("1.26", 7)] })
          id "view-job-filters" (some "1.26")
        = .ok (render id installs (some "1.26")) ∧
      render id installs (some "1.26")
        = id { downloads := installs, versionedLabelPrefix := "installs",
               version := some "1.26" }) ∧
    (∀ message,
      transform { installations := none, installationsPerVersion := some [("1.26", 7)] }
        (some "1.26") = .error (.notFound message) →
      handle (fun _ => Except.ok { installations := none,
                                   installationsPerVersion := some [("1.26", 7)] })
          id "view-job-filters" (some "1.26")
        = .error (.notFound message))) :=
  ⟨rfl,
    handle_composes
      (fun _ => Except.ok { installations := none,
                            installationsPerVersion := some [("1.26", 7)] })
      id "view-job-filters" (some "1.26")
      { installations := none, installationsPerVersion := some [("1.26", 7)] } rfl⟩

/-- Claim C8: `fetch` and `transform` branch on the same truthiness of the
version.  The schema chosen is the per-version one exactly for a truthy
version and the per-date one otherwise (absent or empty); the field that
schema requires is the one `transform` reads: `transform` raises the
TypeError of a missing field exactly when that field is absent, its outcome
is the same on two documents that agree on that field, and a document the
chosen schema accepts never makes it raise the TypeError. -/
theorem fetch_transform_same_branch (plugin : String) (version : Option String) :
    ((fetch plugin version).schema = schemaInstallationsPerVersion ↔
      versionTruthy version = true) ∧
    ((fetch plugin version).schema = schemaInstallations ↔
      versionTruthy version = false) ∧
    (∀ json, transform json version = .error .typeError ↔
      json.get (fetch plugin version).schema.field = none) ∧
    (∀ json json', json.get (fetch plugin version).schema.field
        = json'.get (fetch plugin version).schema.field →
      transform json version = transform json' version) ∧
    (∀ keyOk json, (fetch plugin version).schema.accepts keyOk json = true →
      transform json version ≠ .error .typeError) := by
  have hne : schemaInstallationsPerVersion ≠ schemaInstallations := by decide
  have key : ∀ json, transform json version = .error .typeError ↔
      json.get (fetch plugin version).schema.field = none := by
    intro json
    cases hv : versionTruthy version
    · cases hj : json.installations <;>
        simp [transform, fetch, hv, hj, Json.get, schemaInstallations]
    · cases hj : json.installationsPerVersion with
      | none =>
        simp [transform, fetch, hv, hj, Json.get, schemaInstallationsPerVersion]
      | some o =>
        simp only [transform, fetch, hv, hj, Json.get, schemaInstallationsPerVersion]
        cases (getProp o (toPropertyKey version)).truthy <;> simp
  refine ⟨?_, ?_, key, ?_, ?_⟩
  · cases hv : versionTruthy version <;> simp [fetch, hv, hne.symm]
  · cases hv : versionTruthy version <;> simp [fetch, hv, hne]
  · intro json json' h
    cases hv : versionTruthy version
    · have h' : json.installations = json'.installations := by
        simpa [fetch, hv, Json.get, schemaInstallations] using h
      simp [transform, hv, h']
    · have h' : json.installationsPerVersion = json'.installationsPerVersion := by
        simpa [fetch, hv, Json.get, schemaInstallationsPerVersion] using h
      simp [transform, hv, h']
  · intro keyOk json hacc ht
    have hnone := (key json).mp ht
    simp [Schema.accepts, hnone] at hacc

/-- Claim C9: on the no-version path a non-empty mapping never makes
`transform` raise and the installs returned is a count stored in the
mapping; installs is `undefined` only for the empty mapping, which
`schemaInstallations` rejects. -/
theorem transform_noVersion_safe (json : Json) (version : Option String)
    (o : JSObject) (hv : versionTruthy version = false)
    (hj : json.installations = some o) :
    (o ≠ [] → ∃ k n, (k, n) ∈ o ∧
      transform json version = .ok { installs := .number n }) ∧
    (transform json version = .ok { installs := .undefined } → o = []) ∧
    (∀ keyOk, schemaInstallations.accepts keyOk json = true → o ≠ []) := by
  refine ⟨?_, ?_, ?_⟩
  · intro ho
    obtain ⟨k, n, _, _, _, h4, h5⟩ := transform_latest json version o hv hj ho
    exact ⟨k, n, h4, h5⟩
  · intro hu
    by_contra ho
    obtain ⟨k, n, _, _, _, _, h5⟩ := transform_latest json version o hv hj ho
    rw [h5] at hu
    cases hu
  · intro keyOk hacc ho
    subst ho
    simp [Schema.accepts, schemaInstallations, Json.get, hj] at hacc

/-- Witness of C9 on the documented example. -/
theorem transform_noVersion_safe_witness :
    versionTruthy none = false ∧
    (([("2020-01-01", 5), ("2020-06-01", 12)] : JSObject) ≠ [] →
      ∃ k n, (k, n) ∈ ([("2020-01-01", 5), ("2020-06-01", 12)] : JSObject) ∧
        transform { installations := some [("2020-01-01", 5), ("2020-06-01", 12)],
                    installationsPerVersion := none } none
          = .ok { installs := .number n }) ∧
    (transform { installations := some [("2020-01-01", 5), ("2020-06-01", 12)],
                 installationsPerVersion := none } none
        = .ok { installs := .undefined } →
      ([("2020-01-01", 5), ("2020-06-01", 12)] : JSObject) = []) ∧
    (∀ keyOk, schemaInstallations.accepts keyOk
        { installations := some [("2020-01-01", 5), ("2020-06-01", 12)],
          installationsPerVersion := none } = true →
      ([("2020-01-01", 5), ("2020-06-01", 12)] : JSObject) ≠ []) :=
  ⟨rfl,
    transform_noVersion_safe
      { installations := some [("2020-01-01", 5), ("2020-06-01", 12)],
        installationsPerVersion := none }
      none [("2020-01-01", 5), ("2020-06-01", 12)] rfl rfl⟩

/-- Claim C10: two installations mappings with the same key/count pairs in
different orders give the same result on the no-version path, whatever else
the two documents hold. -/
theorem transform_noVersion_order_independent (o₁ o₂ : JSObject)
    (p₁ p₂ : Option JSObject) (version : Option String)
    (hv : versionTruthy version = false) (hw : WellFormed o₁)
    (hp : o₁.Perm o₂) :
    transform { installations := some o₁, installationsPerVersion := p₁ } version
      = transform { installations := some o₂, installationsPerVersion := p₂ } version := by
  by_cases ho : o₁ = []
  · subst ho
    have : o₂ = [] := List.Perm.eq_nil hp.symm
    subst this
    simp only [transform, hv]
    rfl
  · have ho₂ : o₂ ≠ [] := fun e => ho (List.Perm.eq_nil (e ▸ hp))
    obtain ⟨k₁, n₁, hk₁, hmax₁, _, hin₁, ht₁⟩ :=
      transform_latest { installations := some o₁, installationsPerVersion := p₁ }
        version o₁ hv rfl ho
    obtain ⟨k₂, n₂, hk₂, hmax₂, _, hin₂, ht₂⟩ :=
      transform_latest { installations := some o₂, installationsPerVersion := p₂ }
        version o₂ hv rfl ho₂
    have hkeys : ∀ k, k ∈ ownKeys o₁ ↔ k ∈ ownKeys o₂ := fun k =>
      (hp.map Prod.fst).mem_iff
    have hk : k₁ = k₂ :=
      jsLe_antisymm (hmax₂ k₁ ((hkeys k₁).mp hk₁)) (hmax₁ k₂ ((hkeys k₂).mpr hk₂))
    subst hk
    have hn : n₁ = n₂ :=
      mem_unique_of_wellFormed o₁ hw k₁ n₁ n₂ hin₁ (hp.mem_iff.mpr hin₂)
    rw [ht₁, ht₂, hn]

/-- Witness of C10: the documented example and the same pairs listed in the
opposite order. -/
theorem transform_noVersion_order_independent_witness :
    versionTruthy none = false ∧
    WellFormed [("2020-01-01", 5), ("2020-06-01", 12)] ∧
    List.Perm ([("2020-01-01", 5), ("2020-06-01", 12)] : JSObject)
      [("2020-06-01", 12), ("2020-01-01", 5)] ∧
    transform { installations := some [("2020-01-01", 5), ("2020-06-01", 12)],
                installationsPerVersion := none } none
      = transform { installations := some [("2020-06-01", 12), ("2020-01-01", 5)],
                    installationsPerVersion := none } none :=
  ⟨rfl, by decide, List.Perm.swap _ _ _,
    transform_noVersion_order_independent
      [("2020-01-01", 5), ("2020-06-01", 12)] [("2020-06-01", 12), ("2020-01-01", 5)]
      none none none rfl (by decide) (List.Perm.swap _ _ _)⟩

end JenkinsPluginInstalls
